import Mathlib

/-!
Verification of the control core of the Mini5 QRP SSB transceiver firmware
(`Mini5.c`).  The C source is shallowly embedded: the global configuration
tables become Lean functions, the EEPROM becomes a function `Nat → Nat`
(reads are truncated to a byte exactly as `eeprom_read_byte` returns
`uint8_t`), 32-bit `long` arithmetic is modelled over `Int`/`Nat` with
explicit wrap where the C computation can exceed 32 bits, and the
interactive scanning loops become fuel-indexed functions over an
environment of input streams (key presses, signal samples, encoder state,
and the 10 Hz tick counter), one stream index being consumed per external
read, in program order.
-/

namespace Mini5

/-! ## Configuration tables (Mini5.c lines 127-133) -/

/-- LSB/USB/centre LO frequencies for the 9 MHz filter (`f_lo`, line 127). -/
def f_lo : Nat → Int
  | 0 => 8998660
  | 1 => 9001800
  | _ => 9000000

/-- Standard sideband for each RF band (`std_sideband`, line 130). -/
def std_sideband : Nat → Nat
  | 0 => 0
  | 1 => 0
  | 2 => 1
  | 3 => 1
  | _ => 1

/-- Band centre frequencies (`c_freq`, line 131). -/
def c_freq : Nat → Int
  | 0 => 3650000
  | 1 => 7120000
  | 2 => 14180000
  | 3 => 18100000
  | _ => 21290000

/-- Lower band edges (`band_f0`, line 132). -/
def band_f0 : Nat → Int
  | 0 => 3490000
  | 1 => 6990000
  | 2 => 13990000
  | 3 => 18060000
  | _ => 20990000

/-- Upper band edges (`band_f1`, line 133). -/
def band_f1 : Nat → Int
  | 0 => 3810000
  | 1 => 7210000
  | 2 => 14360000
  | 3 => 18170000
  | _ => 21460000

/-- Band-edge check `is_mem_freq_ok` (lines 1152-1164). -/
def is_mem_freq_ok (f : Int) (cband : Nat) : Bool :=
  decide (band_f0 cband ≤ f) && decide (f ≤ band_f1 cband)

/-! ## EEPROM model (Mini5.c lines 1941-2051) -/

/-- Byte-addressable non-volatile storage; cells may hold any `Nat`, reads
truncate to a byte exactly as `eeprom_read_byte` returns `uint8_t`. -/
abbrev EEPROM := Nat → Nat

/-- Reading one byte (`eeprom_read_byte`): the cell value as a `uint8_t`. -/
def eeprom_read_byte (m : EEPROM) (adr : Nat) : Nat := m adr % 256

/-- Writing one byte (`eeprom_write_byte`): the argument is truncated to
`uint8_t` on write. -/
def eeprom_write_byte (adr : Nat) (v : Int) (m : EEPROM) : EEPROM :=
  fun a => if a = adr then (v % 256).toNat else m a

/-- EEPROM offset of the frequency records (`OFF_FREQ_DATA`, line 85). -/
def OFF_FREQ_DATA : Nat := 64

/-- EEPROM offset of the per-band VFO bytes (`OFF_VFO_DATA`, line 84). -/
def OFF_VFO_DATA : Nat := 7

/-- `load_frequency` (lines 1955-1971): reassemble four big-endian bytes.
The C expression `16777216 * hmsb + ...` is a 32-bit signed `long`
computation; for `hmsb ≥ 128` it overflows and, on avr-gcc, wraps to a
negative value, which the explicit subtraction of `2^32` reproduces. -/
def load_frequency (m : EEPROM) (vfo band : Nat) : Int :=
  let adr := vfo * 4 + band * 8 + OFF_FREQ_DATA
  let total : Int := 16777216 * (eeprom_read_byte m adr : Int)
      + 65536 * (eeprom_read_byte m (adr + 1) : Int)
      + 256 * (eeprom_read_byte m (adr + 2) : Int)
      + (eeprom_read_byte m (adr + 3) : Int)
  if total < 2147483648 then total else total - 4294967296

/-- `store_frequency` (lines 1973-2002): split `f` into four big-endian
bytes and write them.  C's arithmetic right shift on nonnegative `long`
values equals division by the corresponding power of two. -/
def store_frequency (vfo band : Nat) (f : Int) (m : EEPROM) : EEPROM :=
  let adr := vfo * 4 + band * 8 + OFF_FREQ_DATA
  let hiword := f / 65536
  let loword := f - hiword * 65536
  let hmsb := hiword / 256
  let hlsb := hiword - hmsb * 256
  let lmsb := loword / 256
  let llsb := loword - lmsb * 256
  eeprom_write_byte (adr + 3) llsb
    (eeprom_write_byte (adr + 2) lmsb
      (eeprom_write_byte (adr + 1) hlsb
        (eeprom_write_byte adr hmsb m)))

/-- `load_vfo` (lines 2012-2022): the stored byte if it is 0 or 1, else -1. -/
def load_vfo (m : EEPROM) (xband : Nat) : Int :=
  let r : Int := eeprom_read_byte m (xband + OFF_VFO_DATA)
  if r = 0 ∨ r = 1 then r else -1

/-- `load_band` (lines 2031-2041): the stored byte if it is in [0,4], else -1. -/
def load_band (m : EEPROM) : Int :=
  let r : Int := eeprom_read_byte m 0
  if 0 ≤ r ∧ r ≤ 4 then r else -1

/-- `load_tx_preset` (lines 584-603): two bytes, MSB first; values outside
[0,4095] fall back to the mid-scale 2048. -/
def load_tx_preset (m : EEPROM) (band : Nat) : Int :=
  let adr := 128 + band * 2
  let v : Int := 256 * (eeprom_read_byte m adr : Int) + (eeprom_read_byte m (adr + 1) : Int)
  if 0 ≤ v ∧ v ≤ 4095 then v else 2048

/-! ## AD9850 DDS programming (Mini5.c lines 704-768) -/

/-- AD9850 reference clock, 125 MHz (`clk`, line 724). -/
def AD9850_CLK : Nat := 125000000

/-- The idealized 32-bit AD9850 tuning word: the exact value
`⌊fx * 2^32 / clk⌋` that the staged computation
`fword0 = (double) fx / clk * 65536; fword1 = (long)(fword0 * 65536)`
(lines 729-735) would produce with unbounded precision.  On the declared
target (GCC AVR, ATMega328) `double` is the 32-bit binary32 format, so
the word the firmware actually computes is `ad9850_word_avr` below, which
deviates from this ideal by tens of units; the idealized word is kept as
the reference value the band-limited computation approximates, and the
emission structure (`set_frequency_ad9850_trace`) is parametric in the
word value. -/
def ad9850_word (fx : Nat) : Nat := fx * 4294967296 / AD9850_CLK

/-- `hiword = fword1 >> 16` (line 736). -/
def ad9850_hiword (fx : Nat) : Nat := ad9850_word fx / 65536

/-- `loword = fword1 - (hiword << 16)` (line 737). -/
def ad9850_loword (fx : Nat) : Nat := ad9850_word fx - ad9850_hiword fx * 65536

/-- The spec's reference value `round(f / 125000000 * 2^32)` (spec §4.1),
written with a widened integer rounding division.  This definition follows
the specification's words and is compared against `ad9850_word`, which
follows the source. -/
def spec_round_word (fx : Nat) : Nat :=
  (2 * (fx * 4294967296) + AD9850_CLK) / (2 * AD9850_CLK)

/-- Round-to-nearest integer with ties to even: the IEEE-754 rounding of
the exact quotient `n / d` to an integer. -/
def rne_div (n d : Nat) : Nat :=
  let q := n / d
  let r := n % d
  if 2 * r < d then q
  else if d < 2 * r then q + 1
  else if q % 2 = 0 then q else q + 1

/-- Normalization exponent of the integer-to-binary32 conversion: the
smallest `u` with `fx < 2^24 * 2^u`, found by halving (fuel-bounded; 64
covers every frequency a `long` can hold). -/
def fxexp : Nat → Nat → Nat
  | 0, _ => 0
  | fuel + 1, fx => if fx < 16777216 then 0 else 1 + fxexp fuel (fx / 2)

/-- Binade exponent of the float quotient `f1 / clk < 1`: the smallest
`t ≥ 1` with `clk ≤ f1 * 2^t`, found by doubling (fuel-bounded). -/
def qexp : Nat → Nat → Nat → Nat
  | 0, _, _ => 1
  | fuel + 1, f1, clk => if clk ≤ f1 * 2 then 1 else 1 + qexp fuel (f1 * 2) clk

/-- The `(double) fx` conversion on the avr-gcc target, where `double` is
the 32-bit IEEE-754 binary32 format: `fx` rounded to 24 significant bits,
nearest-even. -/
def avr_float_of_nat (fx : Nat) : Nat :=
  rne_div fx (2 ^ fxexp 64 fx) * 2 ^ fxexp 64 fx

/-- The tuning word the staged computation of lines 729-735 produces on
the declared target (GCC AVR, ATMega328), where `double` is binary32:
`fx` is rounded to a 24-bit significand; the division by the exactly
representable `clk = 1953125 * 2^6` is correctly rounded to 24 bits,
nearest-even — its significand is `rne(f1 * 2^(23+t) / clk)` with `t` the
binade exponent of the quotient —; the two multiplications by 65536 scale
the exponent exactly; and the final `(long)` cast truncates, giving
`⌊m * 2^9 / 2^t⌋` (exact whenever `t ≤ 9`, which holds on the bands). -/
def ad9850_word_avr (fx : Nat) : Nat :=
  let f1 := avr_float_of_nat fx
  let t := qexp 64 f1 AD9850_CLK
  let m := rne_div (f1 * 2 ^ (23 + t)) AD9850_CLK
  m * 512 / 2 ^ t

/-- One event on the DDS serial interface: lowering / raising the
frequency-update line, or one data bit clocked out by `spi_send_bit`. -/
inductive DDSEv where
  | fq_down
  | bit (b : Bool)
  | fq_up
  deriving DecidableEq

/-- The bit loop of `set_frequency_ad9850` (lines 744-757): starting from
mask `x`, emit `n` bits, each the truthiness of `v & x`, doubling `x`. -/
def spi_bits (v : Nat) : Nat → Nat → List DDSEv
  | _, 0 => []
  | x, n + 1 => DDSEv.bit (v &&& x != 0) :: spi_bits v (x * 2) n

/-- The event trace of `set_frequency_ad9850` (lines 739-767): lower
FQ_UD, 16 bits of `loword` LSB-first, 16 bits of `hiword` LSB-first,
8 constant-zero control bits, raise FQ_UD. -/
def set_frequency_ad9850_trace (fx : Nat) : List DDSEv :=
  DDSEv.fq_down ::
    (spi_bits (ad9850_loword fx) 1 16 ++
     spi_bits (ad9850_hiword fx) 1 16 ++
     List.replicate 8 (DDSEv.bit false)) ++ [DDSEv.fq_up]

/-- Recognizer for data-bit events, used to count the emitted bits. -/
def DDSEv.isDataBit : DDSEv → Bool
  | DDSEv.bit _ => true
  | _ => false

/-! ## Rotary encoder interrupt (Mini5.c lines 1858-1884) -/

/-- Interrupt-owned tuning state (`laststate`, `tuningknob`,
`tuningcount`, lines 120-124).  All three are machine words on the AVR;
they are modelled as unbounded integers since every claim concerns values
far below the 16/32-bit ranges. -/
structure TuningState where
  laststate : Int
  tuningknob : Int
  tuningcount : Int
  deriving DecidableEq

/-- Gray-to-binary conversion of the two encoder pins
(`state = (gray >> 1) ^ gray`, lines 1860-1862). -/
def graydecode (pinb : Nat) : Nat :=
  let gray := pinb &&& 3
  (gray >>> 1) ^^^ gray

/-- Binary-to-Gray conversion, the inverse used to feed the model a
desired decoded phase. -/
def grayencode (s : Nat) : Nat := s ^^^ (s >>> 1)

/-- The direction term `((laststate - state) & 0x03) - 2` (line 1866).
On the AVR the `int` subtraction is two's complement, so masking with 3
yields the nonnegative residue mod 4, which is exactly `Int.emod`. -/
def encDelta (laststate state : Int) : Int := (laststate - state) % 4 - 2

/-- The pin-change interrupt handler `ISR(PCINT0_vect)` (lines 1858-1871). -/
def isr_pcint0 (pinb : Nat) (st : TuningState) : TuningState :=
  let state : Int := graydecode pinb
  if state ≠ st.laststate then
    { laststate := state
      tuningknob := st.tuningknob + encDelta st.laststate state
      tuningcount := st.tuningcount + 1 }
  else st

/-- One clockwise detent fed to the interrupt handler: the pin pattern
whose Gray decoding is the successor (mod 4) of the current phase. -/
def cwStep (st : TuningState) : TuningState :=
  isr_pcint0 (grayencode (((st.laststate + 1) % 4).toNat)) st

/-- `n` successive clockwise detents. -/
def cwIter : Nat → TuningState → TuningState
  | 0, st => st
  | n + 1, st => cwIter n (cwStep st)

/-! ## Tuning-rate calculator and manual tuning (Mini5.c lines 1167-1187, 1881-1884) -/

/-- `calc_tuningfactor` (lines 1881-1884): `tuningcount * (tuningcount >> 1)`.
The arithmetic right shift equals (floor) division by 2, which is
`Int` division for a positive divisor. -/
def calc_tuningfactor (tuningcount : Int) : Int := tuningcount * (tuningcount / 2)

/-- `tune_frequency` (lines 1167-1187), with the globals it reads and
clears made explicit: given the current frequency, `tuningknob` and
`tuningcount`, return the function result (0 meaning "no change") and the
value of `tuningknob` afterwards. -/
def tune_frequency (fx tuningknob tuningcount : Int) : Int × Int :=
  if tuningknob > 2 then (fx + calc_tuningfactor tuningcount, 0)
  else if tuningknob < -2 then (fx - calc_tuningfactor tuningcount, 0)
  else (0, tuningknob)

/-! ## Dual-VFO scan result encoding (Mini5.c lines 1035, 2674-2682) -/

/-- The value returned by `scan_vfoa_vfob` on accept (line 1035):
`((long)t1 << 28) + f`, i.e. the VFO index in bit 28 above the frequency. -/
def scan_vfoab_ret (t1 : Nat) (f : Int) : Int := (t1 : Int) * 268435456 + f

/-- The caller's decoding in `main` (lines 2677-2679): `ftmp >> 28` as the
VFO index and `ftmp & 0xFFFFFFF` as the frequency; on the nonnegative
return values these are division and remainder by `2^28`. -/
def main_scan_decode (w : Int) : Int × Int := (w / 268435456, w % 268435456)

/-! ## Startup load sequence (Mini5.c lines 2544-2596) -/

/-- The operating state assembled by `main` from the EEPROM at startup. -/
structure StartupState where
  cur_band : Nat
  cur_vfo : Nat
  freq : Int
  sideband : Nat
  thresh : Int
  tx_preset : Nat → Int

/-- Band loaded at startup (lines 2546-2550): default 2 (20 m) when
`load_band` reports an invalid byte. -/
def startup_band (m : EEPROM) : Nat :=
  if load_band m = -1 then 2 else (load_band m).toNat

/-- VFO loaded at startup (lines 2552-2556): default 0 (VFO A) when
`load_vfo` reports an invalid byte. -/
def startup_vfo (m : EEPROM) : Nat :=
  if load_vfo m (startup_band m) = -1 then 0 else (load_vfo m (startup_band m)).toNat

/-- Frequency loaded at startup (lines 2558-2562): the stored record when
it passes the band-edge check, else the band's centre frequency. -/
def startup_freq (m : EEPROM) : Int :=
  if is_mem_freq_ok (load_frequency m (startup_vfo m) (startup_band m)) (startup_band m)
  then load_frequency m (startup_vfo m) (startup_band m)
  else c_freq (startup_band m)

/-- Scan threshold loaded at startup (lines 2567-2571): default 8 when
the stored byte is outside [0,12]. -/
def startup_thresh (m : EEPROM) : Int :=
  if (eeprom_read_byte m 138 : Int) < 0 ∨ (eeprom_read_byte m 138 : Int) > 12
  then 8 else (eeprom_read_byte m 138 : Int)

/-- TX preset loaded at startup (lines 2589-2596): `load_tx_preset`
already defaults to 2048, and `main` re-checks against [0,4096]. -/
def startup_tx (m : EEPROM) (b : Nat) : Int :=
  if load_tx_preset m b < 0 ∨ load_tx_preset m b > 4096 then 2048 else load_tx_preset m b

/-- The startup load sequence of `main` (lines 2544-2596): band with
default 2, VFO with default 0, frequency with band-edge validation and
centre-frequency fallback, the band's standard sideband (line 2563), scan
threshold with default 8, and the TX presets. -/
def startup_load (m : EEPROM) : StartupState :=
  { cur_band := startup_band m
    cur_vfo := startup_vfo m
    freq := startup_freq m
    sideband := std_sideband (startup_band m)
    thresh := startup_thresh m
    tx_preset := startup_tx m }

/-! ## Band change transition (Mini5.c lines 1120-1149, 2625-2644, 2725-2760) -/

/-- The in-memory operating state of `main` together with the last values
programmed into the two oscillators: `lo_prog` is the sideband index whose
offset `set_lo` last wrote to the Si5351, `dds_freq` the frequency last
written to the AD9850. -/
structure RadioState where
  cur_band : Nat
  cur_vfo : Nat
  sideband : Nat
  f_vfo : Nat → Nat → Int
  lo_prog : Nat
  dds_freq : Int

/-- The band-change transition shared by the menu cases 0-4
(lines 2629-2642) and the fast-QSY key (lines 2740-2753): `set_band`
programs the relays and the LO with the new band's standard sideband
(line 1147) — note it does not assign the global `sideband` —, the band's
frequency is reloaded with edge validation and centre fallback, and the
DDS is reprogrammed with the new frequency plus `f_lo[sideband]` for the
(unchanged) global `sideband`. -/
def band_change (st : RadioState) (m : EEPROM) (newband : Nat) : RadioState :=
  let fraw := load_frequency m st.cur_vfo newband
  let fnew := if is_mem_freq_ok fraw newband then fraw else c_freq newband
  { cur_band := newband
    cur_vfo := st.cur_vfo
    sideband := st.sideband
    f_vfo := fun b v => if b = newband ∧ v = st.cur_vfo then fnew else st.f_vfo b v
    lo_prog := std_sideband newband
    dds_freq := fnew + f_lo st.sideband }

/-- The fast-QSY band successor (lines 2730-2737). -/
def next_band (b : Nat) : Nat := if b < 4 then b + 1 else 0

/-- Concrete state used to evaluate the band-change transition: band 2
(20 m), VFO A, sideband USB (= band 2's standard sideband). -/
def c2_state : RadioState :=
  { cur_band := 2
    cur_vfo := 0
    sideband := 1
    f_vfo := fun _ _ => 14200000
    lo_prog := 1
    dds_freq := 14200000 + 9001800 }

/-- An all-zero EEPROM image. -/
def zeroEE : EEPROM := fun _ => 0

/-- An EEPROM image whose VFO-A record for band 3 holds 18111000 Hz
(bytes 1, 20, 90, 24 at addresses 88-91), inside band 3's edges. -/
def c2ee : EEPROM := fun a =>
  if a = 88 then 1 else if a = 89 then 20 else if a = 90 then 90 else
  if a = 91 then 24 else 0

/-- An EEPROM image with every cell at 255, an all-erased part. -/
def m255 : EEPROM := fun _ => 255

/-! ## Scanner (Mini5.c lines 776-918)

The scanning loops poll four external sources: `get_keys()`, the S-meter
`get_s_value()`, the interrupt-maintained pair `tuningknob`/`tuningcount`
consumed through `tune_frequency`, and the 10 Hz tick counter
`runseconds10`.  They are modelled as streams indexed by a counter that
advances by one at every external read, in program order; the inner
`while` loops, which the C code lets run unboundedly, take fuel and return
`none` when it is exhausted. -/

/-- The environment of a scan: the values successive external reads will
observe.  `knob`/`cnt` are the `tuningknob`/`tuningcount` pair read by a
`tune_frequency` call (one index per call). -/
structure ScanEnv where
  key : Nat → Int
  sval : Nat → Int
  knob : Nat → Int
  cnt : Nat → Int
  rsec : Nat → Int

/-- The manual-tuning fragment repeated throughout the scanner
(e.g. lines 846-853): `ftmp = tune_frequency(fx); if(ftmp) fx = ftmp;`.
One stream index is consumed. -/
def tuneApply (e : ScanEnv) (t : Nat) (fx : Int) : Int :=
  let ftmp := (tune_frequency fx (e.knob t) (e.cnt t)).1
  if ftmp ≠ 0 then ftmp else fx

/-- The strong-signal hold `while(sval > thresh && !key)` (lines 834-854):
re-measure, poll keys, set `wait`, honour manual tuning; returns the
stream position, probe frequency, last measurement, last key and the
`wait` flag when the loop exits. -/
def stopLoop (th : Int) (e : ScanEnv) :
    Nat → Nat → Int → Int → Int → Bool → Option (Nat × Int × Int × Int × Bool)
  | 0, _, _, _, _, _ => none
  | fuel + 1, t, fx, sval, key, wait =>
    if sval > th ∧ key = 0 then
      stopLoop th e fuel (t + 3) (tuneApply e (t + 2) fx) (e.sval t) (e.key (t + 1)) true
    else some (t, fx, sval, key, wait)

/-- The dwell `while(runsecs10thresh + 30 > runseconds10)` (lines 862-885):
each pass reads the tick counter, polls keys (a key press zeroes the
threshold for a fast exit) and honours manual tuning.  On exit it returns
the stream position, probe frequency, last key, and the index of the tick
read that allowed the exit. -/
def dwellLoop (e : ScanEnv) :
    Nat → Nat → Int → Int → Int → Option (Nat × Int × Int × Nat)
  | 0, _, _, _, _ => none
  | fuel + 1, t, fx, key, th30 =>
    if th30 + 30 > e.rsec t then
      let key1 := e.key (t + 1)
      let th31 := if key1 ≠ 0 then 0 else th30
      dwellLoop e fuel (t + 3) (tuneApply e (t + 2) fx) key1 th31
    else some (t + 1, fx, key, t)

/-- Result of one pass of the `for(fx = f[0]; fx < f[1]; fx += 100)` body:
either the scan returns a value, or the loop continues at a stream
position with a (possibly manually retuned) probe frequency. -/
inductive IterOut where
  | exit (v : Int)
  | cont (t : Nat) (fx : Int)
  deriving DecidableEq

/-- One body of the sweep loop (lines 824-913): poll keys, program the
DDS, measure, run the strong-signal hold, capture the tick counter, run
the dwell when the hold was entered, honour manual tuning once more, then
dispatch on the key: 2 returns the probe, 3 returns 0, anything else
continues (the code then clears `key` and adds 100 Hz). -/
def iterBody (th : Int) (e : ScanEnv) (fuel : Nat) (t : Nat) (fx : Int) (wait : Bool) :
    Option IterOut :=
  let key0 := e.key t
  let sval0 := e.sval (t + 1)
  match stopLoop th e fuel (t + 2) fx sval0 key0 wait with
  | none => none
  | some (t1, fx1, _, key1, wait1) =>
    let th30 := e.rsec t1
    let afterDwell : Option (Nat × Int × Int) :=
      if wait1 then
        match dwellLoop e fuel (t1 + 1) fx1 key1 th30 with
        | none => none
        | some (t2, fx2, key2, _) => some (t2, fx2, key2)
      else some (t1 + 1, fx1, key1)
    match afterDwell with
    | none => none
    | some (t2, fx2, key2) =>
      let fx3 := tuneApply e t2 fx2
      if key2 = 2 then some (IterOut.exit fx3)
      else if key2 = 3 then some (IterOut.exit 0)
      else some (IterOut.cont (t2 + 1) fx3)

/-- The inner `for` loop (line 824): run bodies while `fx < hi`, advancing
by 100 Hz between bodies; `Sum.inl v` is a `return v`, `Sum.inr` reports
the stream position and `wait` flag when the sweep reaches the upper
bound. -/
def scanFor (th : Int) (e : ScanEnv) (hi : Int) :
    Nat → Nat → Int → Bool → Option (Int ⊕ (Nat × Bool))
  | 0, _, _, _ => none
  | fuel + 1, t, fx, wait =>
    if fx < hi then
      match iterBody th e fuel t fx wait with
      | none => none
      | some (IterOut.exit v) => some (Sum.inl v)
      | some (IterOut.cont t1 fx1) => scanFor th e hi fuel t1 (fx1 + 100) false
    else some (Sum.inr (t, wait))

/-- The outer `while(key != 2)` loop (line 822): restart the sweep at the
lower bound until a body returns. -/
def scanOuter (th : Int) (e : ScanEnv) (lo hi : Int) :
    Nat → Nat → Bool → Option Int
  | 0, _, _ => none
  | fuel + 1, t, wait =>
    match scanFor th e hi (fuel + 1) t lo wait with
    | none => none
    | some (Sum.inl v) => some v
    | some (Sum.inr (t1, wait1)) => scanOuter th e lo hi fuel t1 wait1

/-- The sweep-bound normalization of `scan_f0_f1` (lines 801-811): the
current band's two VFO frequencies, swapped if needed so that the first
is not larger. -/
def scan_bounds (a b : Int) : Int × Int := if a > b then (b, a) else (a, b)

/-- The key-release wait `while(get_keys());` (line 818). -/
def debounce (e : ScanEnv) : Nat → Nat → Option Nat
  | 0, _ => none
  | fuel + 1, t => if e.key t ≠ 0 then debounce e fuel (t + 1) else some (t + 1)

/-- `scan_f0_f1` (lines 776-918) over the input streams: `a` and `b` are
`f_vfo[cur_band][0]` and `f_vfo[cur_band][1]`; `wait0` is the value the
uninitialized local `wait` happens to start with (the C code first writes
it inside the strong-signal hold). -/
def scan_f0_f1 (th : Int) (e : ScanEnv) (a b : Int) (wait0 : Bool) (fuel : Nat) :
    Option Int :=
  let fpair := scan_bounds a b
  match debounce e fuel 0 with
  | none => none
  | some t0 => scanOuter th e fpair.1 fpair.2 fuel t0 wait0

/-- Quiet environment with a single "accept" key press at stream index 5
(the key poll of sweep iteration 1), used to witness the sweep theorem. -/
def c6env : ScanEnv :=
  { key := fun t => if t = 5 then 2 else 0
    sval := fun _ => 0
    knob := fun _ => 0
    cnt := fun _ => 0
    rsec := fun _ => 0 }

/-- Key-free environment whose tick counter advances by one per read,
used to witness the dwell theorem. -/
def c7env : ScanEnv :=
  { key := fun _ => 0
    sval := fun _ => 0
    knob := fun _ => 0
    cnt := fun _ => 0
    rsec := fun t => (t : Int) }

/-! ## Helper lemmas -/

/-- Gray encoding and the handler's Gray-to-binary conversion are mutually
inverse on the four 2-bit phases. -/
theorem graydecode_grayencode : ∀ s, s < 4 → graydecode (grayencode s) = s := by decide

/-- A `spi_send_bit` loop starting at mask `2^j` emits the bits of `v`
from position `j` upward, LSB-first. -/
theorem spi_bits_testBit (v : Nat) :
    ∀ n j, spi_bits v (2 ^ j) n =
      (List.range n).map (fun i => DDSEv.bit (v.testBit (j + i))) := by
  intro n
  induction n with
  | zero => intro j; simp [spi_bits]
  | succ n ih =>
    intro j
    have hp : (2 : Nat) ^ j ≠ 0 := (pow_pos (by norm_num : (0:ℕ) < 2) j).ne'
    have hb : (v &&& 2 ^ j != 0) = v.testBit j := by
      rw [Nat.and_two_pow]
      cases h : v.testBit j <;> simp [h, hp]
    have h2 : 2 ^ j * 2 = 2 ^ (j + 1) := by ring
    rw [spi_bits, h2, hb, ih (j + 1), List.range_succ_eq_map]
    simp only [List.map_cons, List.map_map, Nat.add_zero]
    refine congrArg₂ _ rfl (List.map_congr_left ?_)
    intro i _
    simp only [Function.comp_apply, Nat.succ_eq_add_one]
    exact congrArg _ (congrArg _ (by omega))

/-- A clockwise detent adds exactly one to the step accumulator and moves
the stored phase to its successor mod 4. -/
theorem cwStep_eq (st : TuningState) (h0 : 0 ≤ st.laststate) (h1 : st.laststate < 4) :
    cwStep st =
      { laststate := (st.laststate + 1) % 4
        tuningknob := st.tuningknob + 1
        tuningcount := st.tuningcount + 1 } := by
  have hm : ((st.laststate + 1) % 4).toNat < 4 := by omega
  have hgd : graydecode (grayencode (((st.laststate + 1) % 4).toNat)) =
      ((st.laststate + 1) % 4).toNat := graydecode_grayencode _ hm
  have hstate : ((graydecode (grayencode (((st.laststate + 1) % 4).toNat)) : Nat) : Int) =
      (st.laststate + 1) % 4 := by rw [hgd]; omega
  unfold cwStep isr_pcint0
  rw [hstate, if_pos (by omega)]
  simp only [TuningState.mk.injEq]
  refine ⟨trivial, ?_, trivial⟩
  unfold encDelta
  omega

/-- Accumulation of `n` clockwise detents: the accumulator grows by
exactly `n` while the phase stays in range. -/
theorem cwIter_accum : ∀ (n : Nat) (st : TuningState), 0 ≤ st.laststate → st.laststate < 4 →
    (cwIter n st).tuningknob = st.tuningknob + n ∧
    0 ≤ (cwIter n st).laststate ∧ (cwIter n st).laststate < 4 := by
  intro n
  induction n with
  | zero => intro st h0 h1; exact ⟨by simp [cwIter], h0, h1⟩
  | succ n ih =>
    intro st h0 h1
    have hcw := cwStep_eq st h0 h1
    have hnext := ih (cwStep st) (by rw [hcw]; simp; omega) (by rw [hcw]; simp; omega)
    refine ⟨?_, hnext.2.1, hnext.2.2⟩
    have : cwIter (n + 1) st = cwIter n (cwStep st) := rfl
    rw [this, hnext.1, hcw]
    simp
    omega

/-! ## Claim theorems -/

/-- Round-to-nearest with ties to even stays within half a unit of the
exact quotient: `|d * rne_div n d - n| <= d/2`, in cleared-denominator
form. -/
theorem rne_div_spec (n d : Nat) (hd : 0 < d) :
    2 * n ≤ 2 * (d * rne_div n d) + d ∧ 2 * (d * rne_div n d) ≤ 2 * n + d := by
  have h1 : d * (n / d) + n % d = n := Nat.div_add_mod n d
  have h2 : n % d < d := Nat.mod_lt n hd
  simp only [rne_div]
  split_ifs with ha hb hc
  · constructor <;> omega
  · simp only [Nat.mul_add, Nat.mul_one]
    constructor <;> omega
  · constructor <;> omega
  · simp only [Nat.mul_add, Nat.mul_one]
    constructor <;> omega

/-- Rounding with denominator 1 is the identity. -/
theorem rne_div_one (n : Nat) : rne_div n 1 = n := by
  simp only [rne_div, Nat.mod_one, Nat.div_one]
  norm_num

/-- The fuel-bounded halving search finds the binary32 normalization
exponent: the smallest `u` with `fx < 2^24 * 2^u`. -/
theorem fxexp_spec : ∀ (fuel fx : Nat), fx < 16777216 * 2 ^ fuel →
    fx < 16777216 * 2 ^ fxexp fuel fx ∧
    (fxexp fuel fx = 0 ∨ 16777216 * 2 ^ (fxexp fuel fx - 1) ≤ fx) := by
  intro fuel
  induction fuel with
  | zero =>
    intro fx h
    exact ⟨h, Or.inl rfl⟩
  | succ fuel ih =>
    intro fx h
    simp only [fxexp]
    split
    · rename_i hlt
      refine ⟨by simpa using hlt, Or.inl rfl⟩
    · rename_i hge
      have hdiv : fx / 2 < 16777216 * 2 ^ fuel := by
        rw [pow_succ] at h
        omega
      obtain ⟨ih1, ih2⟩ := ih (fx / 2) hdiv
      have hp : (16777216 : Nat) * 2 ^ (1 + fxexp fuel (fx / 2)) =
          16777216 * 2 ^ fxexp fuel (fx / 2) * 2 := by
        rw [add_comm 1 (fxexp fuel (fx / 2)), pow_succ]
        ring
      constructor
      · rw [hp]
        omega
      · right
        have h1k : 1 + fxexp fuel (fx / 2) - 1 = fxexp fuel (fx / 2) := by omega
        rw [h1k]
        rcases ih2 with h0 | hge2
        · rw [h0]
          simpa using hge
        · rcases Nat.eq_zero_or_pos (fxexp fuel (fx / 2)) with hz | hpos
          · rw [hz]
            simpa using hge
          · have hk1 : (16777216 : Nat) * 2 ^ fxexp fuel (fx / 2) =
                16777216 * 2 ^ (fxexp fuel (fx / 2) - 1) * 2 := by
              rw [mul_assoc, ← pow_succ]
              congr 2
              omega
            rw [hk1]
            omega

/-- The fuel-bounded doubling search finds the quotient binade: the
smallest `t ≥ 1` with `clk ≤ f1 * 2^t`. -/
theorem qexp_spec : ∀ (fuel f1 clk : Nat), 0 < f1 → clk ≤ f1 * 2 ^ fuel →
    1 ≤ qexp fuel f1 clk ∧ clk ≤ f1 * 2 ^ qexp fuel f1 clk ∧
    (f1 < clk → f1 * 2 ^ (qexp fuel f1 clk - 1) < clk) := by
  intro fuel
  induction fuel with
  | zero =>
    intro f1 clk h0 h
    rw [pow_zero, mul_one] at h
    simp only [qexp]
    refine ⟨Nat.le_refl 1, ?_, ?_⟩
    · rw [pow_one]
      omega
    · intro hlt
      simpa using hlt
  | succ fuel ih =>
    intro f1 clk h0 h
    simp only [qexp]
    split
    · rename_i hle
      refine ⟨Nat.le_refl 1, ?_, ?_⟩
      · rw [pow_one]
        omega
      · intro hlt
        simpa using hlt
    · rename_i hgt
      have h2 : clk ≤ f1 * 2 * 2 ^ fuel := by
        have hr : f1 * 2 ^ (fuel + 1) = f1 * 2 * 2 ^ fuel := by
          rw [pow_succ]
          ring
        rw [hr] at h
        exact h
      obtain ⟨ih1, ih2, ih3⟩ := ih (f1 * 2) clk (by omega) h2
      refine ⟨by omega, ?_, ?_⟩
      · have hr : f1 * 2 ^ (1 + qexp fuel (f1 * 2) clk) =
            f1 * 2 * 2 ^ qexp fuel (f1 * 2) clk := by
          rw [add_comm 1 (qexp fuel (f1 * 2) clk), pow_succ]
          ring
        rw [hr]
        exact ih2
      · intro hlt
        have h1k : 1 + qexp fuel (f1 * 2) clk - 1 = qexp fuel (f1 * 2) clk := by omega
        rw [h1k]
        have ih3a := ih3 (by omega)
        have hr : f1 * 2 ^ qexp fuel (f1 * 2) clk =
            f1 * 2 * 2 ^ (qexp fuel (f1 * 2) clk - 1) := by
          rw [mul_assoc, ← pow_succ']
          congr 2
          omega
        rw [hr]
        exact ih3a

/-- Claim C1, counterexample to the original statement: at the in-band
frequency 14.2 MHz (band 2) the binary32 staged computation of the
declared avr-gcc target produces the word 487908288 while
`round(f / 125000000 * 2^32)` is 487908285 — three least-significant
steps apart, so the word is not within one step, and the decoded
frequency is off by more than one reference-clock resolution step. -/
theorem c1_float_word_counterexample :
    band_f0 2 ≤ (14200000 : Int) ∧ (14200000 : Int) ≤ band_f1 2 ∧
    ad9850_word_avr 14200000 = 487908288 ∧
    spec_round_word 14200000 = 487908285 ∧
    ¬ (spec_round_word 14200000 ≤ ad9850_word_avr 14200000 + 1 ∧
       ad9850_word_avr 14200000 ≤ spec_round_word 14200000) ∧
    ¬ (ad9850_word_avr 14200000 * AD9850_CLK ≤ 14200000 * 4294967296 ∧
       14200000 * 4294967296 <
         ad9850_word_avr 14200000 * AD9850_CLK + AD9850_CLK) := by
  decide

/-- Claim C1, amended: on the declared avr-gcc target, where `double` is
the IEEE-754 binary32 format, the staged computation yields for every
in-band frequency a tuning word within 96 least-significant steps of
`round(f / 125000000 * 2^32)` — not within one: the 24-bit significand
of the float quotient allows deviations of tens of steps — and the word
is never silently 0, stays below `2^31` (no 32-bit overflow wraparound),
and decodes back to the frequency within 96 reference-clock resolution
steps. -/
theorem c1_ad9850_word_binary32 (b fx : Nat) (hb : b < 5)
    (h0 : band_f0 b ≤ (fx : Int)) (h1 : (fx : Int) ≤ band_f1 b) :
    (spec_round_word fx ≤ ad9850_word_avr fx + 96 ∧
      ad9850_word_avr fx ≤ spec_round_word fx + 96) ∧
    ad9850_word_avr fx ≠ 0 ∧
    ad9850_word_avr fx < 2147483648 ∧
    (ad9850_word_avr fx * AD9850_CLK ≤ fx * 4294967296 + 96 * AD9850_CLK ∧
      fx * 4294967296 ≤ ad9850_word_avr fx * AD9850_CLK + 96 * AD9850_CLK) := by
  have hfx : 3490000 ≤ fx ∧ fx ≤ 21460000 := by
    interval_cases b <;> (simp only [band_f0, band_f1] at h0 h1) <;> omega
  have hfu : fx < 16777216 * 2 ^ 64 := by
    calc fx ≤ 21460000 := hfx.2
      _ < 16777216 * 2 ^ 64 := by norm_num
  obtain ⟨hu1, hu2⟩ := fxexp_spec 64 fx hfu
  set u := fxexp 64 fx with hu
  have hule : u ≤ 1 := by
    rcases hu2 with h | h
    · omega
    · by_contra hc
      push_neg at hc
      have hp : (2 : Nat) ^ 1 ≤ 2 ^ (u - 1) :=
        Nat.pow_le_pow_right (by norm_num) (by omega)
      have h2 : 16777216 * 2 ^ 1 ≤ 16777216 * 2 ^ (u - 1) :=
        Nat.mul_le_mul (Nat.le_refl 16777216) hp
      norm_num at h2
      omega
  have hf1eq : avr_float_of_nat fx = rne_div fx (2 ^ u) * 2 ^ u := by
    unfold avr_float_of_nat
    rw [← hu]
  set f1 := avr_float_of_nat fx with hf1
  have hdist : 2 * f1 ≤ 2 * fx + 2 ∧ 2 * fx ≤ 2 * f1 + 2 := by
    have hcase : u = 0 ∨ u = 1 := by omega
    rcases hcase with hc | hc
    · have hv : f1 = fx := by
        rw [hf1eq, hc, pow_zero, mul_one, rne_div_one]
      omega
    · have hs := rne_div_spec fx 2 (by norm_num)
      have hv : f1 = rne_div fx 2 * 2 := by
        rw [hf1eq, hc, pow_one]
      omega
  have hf1pos : 0 < f1 := by omega
  have hclkle : AD9850_CLK ≤ f1 * 2 ^ 64 := by
    have h64 : AD9850_CLK ≤ 2 ^ 64 := by norm_num [AD9850_CLK]
    calc AD9850_CLK ≤ 2 ^ 64 := h64
      _ ≤ f1 * 2 ^ 64 := Nat.le_mul_of_pos_left _ hf1pos
  obtain ⟨ht1, ht2, ht3⟩ := qexp_spec 64 f1 AD9850_CLK hf1pos hclkle
  set t := qexp 64 f1 AD9850_CLK with ht
  have hf1clk : f1 < AD9850_CLK := by
    simp only [AD9850_CLK]
    omega
  have htmin := ht3 hf1clk
  simp only [AD9850_CLK] at ht2 htmin
  have ht6 : t ≤ 6 := by
    by_contra hc
    push_neg at hc
    have hp : (2 : Nat) ^ 6 ≤ 2 ^ (t - 1) :=
      Nat.pow_le_pow_right (by norm_num) (by omega)
    have hmul : f1 * 2 ^ 6 ≤ f1 * 2 ^ (t - 1) :=
      Nat.mul_le_mul (Nat.le_refl f1) hp
    norm_num at hmul
    omega
  have ht3lo : 3 ≤ t := by
    by_contra hc
    push_neg at hc
    have hp : (2 : Nat) ^ t ≤ 2 ^ 2 :=
      Nat.pow_le_pow_right (by norm_num) (by omega)
    have hmul : f1 * 2 ^ t ≤ f1 * 2 ^ 2 :=
      Nat.mul_le_mul (Nat.le_refl f1) hp
    norm_num at hmul
    omega
  obtain ⟨hm1, hm2⟩ := rne_div_spec (f1 * 2 ^ (23 + t)) AD9850_CLK
    (by norm_num [AD9850_CLK])
  set m := rne_div (f1 * 2 ^ (23 + t)) AD9850_CLK with hm
  have hword : ad9850_word_avr fx = m * 512 / 2 ^ t := by
    simp only [ad9850_word_avr]
  rw [hword]
  simp only [spec_round_word, AD9850_CLK] at hm1 hm2 ⊢
  clear_value m
  clear hm ht3 hword hclkle hf1eq hu1 hu2 hule hf1clk
  clear_value f1
  clear hf1
  clear_value t
  clear ht ht1
  interval_cases t <;> (norm_num at hm1 hm2 ⊢) <;> omega

/-- Witness for the amended C1 at band 2, 14.2 MHz. -/
theorem c1_ad9850_word_binary32_witness :
    (spec_round_word 14200000 ≤ ad9850_word_avr 14200000 + 96 ∧
      ad9850_word_avr 14200000 ≤ spec_round_word 14200000 + 96) ∧
    ad9850_word_avr 14200000 ≠ 0 ∧
    ad9850_word_avr 14200000 < 2147483648 ∧
    (ad9850_word_avr 14200000 * AD9850_CLK ≤
        14200000 * 4294967296 + 96 * AD9850_CLK ∧
      14200000 * 4294967296 ≤
        ad9850_word_avr 14200000 * AD9850_CLK + 96 * AD9850_CLK) :=
  c1_ad9850_word_binary32 2 14200000 (by decide) (by decide) (by decide)

/-- Claim C3: for every pair of 2-bit phases the interrupt decoder's
direction term `((previous − current) & 3) − 2` is −1, 0 or +1 on unequal
phases (+1 on a forward single step, −1 on a backward single step, 0 on
the remaining unequal pair, which is ignored rather than an error), equal
phases leave the handler's state untouched, and `n` successive valid
same-direction detents change the accumulator by exactly `n`. -/
theorem c3_encoder_decode (p s : Int) (hp0 : 0 ≤ p) (hp : p < 4)
    (hs0 : 0 ≤ s) (hs : s < 4) :
    (p ≠ s → encDelta p s = -1 ∨ encDelta p s = 0 ∨ encDelta p s = 1) ∧
    (s = (p + 1) % 4 → encDelta p s = 1) ∧
    (s = (p + 3) % 4 → encDelta p s = -1) ∧
    (s = (p + 2) % 4 → encDelta p s = 0) ∧
    (∀ (st : TuningState) (pinb : Nat), st.laststate = p →
        ((graydecode pinb : Nat) : Int) = p → isr_pcint0 pinb st = st) ∧
    (∀ (st : TuningState) (n : Nat), st.laststate = p →
        (cwIter n st).tuningknob = st.tuningknob + n) := by
  refine ⟨?_, ?_, ?_, ?_, ?_, ?_⟩
  · intro h; unfold encDelta; omega
  · intro h; unfold encDelta; omega
  · intro h; unfold encDelta; omega
  · intro h; unfold encDelta; omega
  · intro st pinb hlast hdec
    unfold isr_pcint0
    rw [hdec, hlast]
    simp
  · intro st n hlast
    exact (cwIter_accum n st (by omega) (by omega)).1

/-- Witness for C3 at the phase pair (0, 1). -/
theorem c3_encoder_decode_witness :
    encDelta 0 1 = -1 ∨ encDelta 0 1 = 0 ∨ encDelta 0 1 = 1 :=
  (c3_encoder_decode 0 1 (by decide) (by decide) (by decide) (by decide)).1 (by decide)

/-- Claim C4: manual tuning is a no-op returning 0 while the accumulator
is inside the deadband [−2, 2]; above it the new frequency is
`f + count·(count >> 1)` and the accumulator is cleared; below it the new
frequency is `f − count·(count >> 1)` and the accumulator is cleared. -/
theorem c4_tune_frequency (f k c : Int) :
    ((-2 ≤ k ∧ k ≤ 2) → tune_frequency f k c = (0, k)) ∧
    (2 < k → tune_frequency f k c = (f + c * (c / 2), 0)) ∧
    (k < -2 → tune_frequency f k c = (f - c * (c / 2), 0)) := by
  unfold tune_frequency calc_tuningfactor
  refine ⟨?_, ?_, ?_⟩ <;> intro h <;> split_ifs <;> first | rfl | (exfalso; omega)

/-- Witness for C4 with accumulator 3 and rotation count 4. -/
theorem c4_tune_frequency_witness :
    tune_frequency 14200000 3 4 = (14200000 + 4 * (4 / 2), 0) :=
  (c4_tune_frequency 14200000 3 4).2.1 (by decide)

/-- Claim C8: the dual-VFO scan accept value `(v << 28) + f` decodes in
`main` by `>> 28` and `& 0xFFFFFFF` back to exactly `(v, f)` for every
VFO index in {0,1} and frequency below `2^28`, and the encoded value fits
a 32-bit signed long. -/
theorem c8_vfo_scan_roundtrip (v : Nat) (f : Int) (hv : v ≤ 1) (h0 : 0 ≤ f)
    (h1 : f < 268435456) :
    main_scan_decode (scan_vfoab_ret v f) = ((v : Int), f) ∧
    scan_vfoab_ret v f < 2147483648 := by
  simp only [main_scan_decode, scan_vfoab_ret, Prod.mk.injEq]
  refine ⟨⟨?_, ?_⟩, ?_⟩ <;> omega

/-- Witness for C8 at VFO B and 14.2 MHz. -/
theorem c8_vfo_scan_roundtrip_witness :
    main_scan_decode (scan_vfoab_ret 1 14200000) = ((1 : Int), 14200000) ∧
    scan_vfoab_ret 1 14200000 < 2147483648 :=
  c8_vfo_scan_roundtrip 1 14200000 (by decide) (by decide) (by decide)

/-- Claim C9: programming the AD9850 emits, between lowering and raising
the frequency-update line, exactly 40 data bits: the 16 bits of the low
half of the tuning word LSB-first, then the 16 bits of the high half
LSB-first, then 8 zero control bits; and the two halves recombine to the
tuning word. -/
theorem c9_dds_bit_sequence (fx : Nat) :
    set_frequency_ad9850_trace fx =
      DDSEv.fq_down ::
        ((List.range 16).map (fun i => DDSEv.bit ((ad9850_loword fx).testBit i)) ++
         (List.range 16).map (fun i => DDSEv.bit ((ad9850_hiword fx).testBit i)) ++
         List.replicate 8 (DDSEv.bit false)) ++ [DDSEv.fq_up] ∧
    ad9850_loword fx + 65536 * ad9850_hiword fx = ad9850_word fx ∧
    ad9850_loword fx < 65536 ∧
    ((set_frequency_ad9850_trace fx).filter DDSEv.isDataBit).length = 40 ∧
    (set_frequency_ad9850_trace fx).head? = some DDSEv.fq_down ∧
    (set_frequency_ad9850_trace fx).getLast? = some DDSEv.fq_up := by
  have hsplit : ad9850_loword fx + 65536 * ad9850_hiword fx = ad9850_word fx := by
    simp only [ad9850_loword, ad9850_hiword]
    omega
  have hlo : ad9850_loword fx < 65536 := by
    simp only [ad9850_loword, ad9850_hiword]
    omega
  have hone : (1 : Nat) = 2 ^ 0 := rfl
  have htrace : set_frequency_ad9850_trace fx =
      DDSEv.fq_down ::
        ((List.range 16).map (fun i => DDSEv.bit ((ad9850_loword fx).testBit i)) ++
         (List.range 16).map (fun i => DDSEv.bit ((ad9850_hiword fx).testBit i)) ++
         List.replicate 8 (DDSEv.bit false)) ++ [DDSEv.fq_up] := by
    unfold set_frequency_ad9850_trace
    rw [hone, spi_bits_testBit, spi_bits_testBit]
    simp
  refine ⟨htrace, hsplit, hlo, ?_, ?_, ?_⟩
  · rw [htrace]
    have hc1 : (DDSEv.isDataBit ∘ fun i => DDSEv.bit ((ad9850_loword fx).testBit i)) =
        fun _ => true := funext fun i => rfl
    have hc2 : (DDSEv.isDataBit ∘ fun i => DDSEv.bit ((ad9850_hiword fx).testBit i)) =
        fun _ => true := funext fun i => rfl
    simp [List.filter_append, List.filter_map, hc1, hc2, DDSEv.isDataBit]
  · rw [htrace]
    rfl
  · rw [htrace]
    exact List.getLast?_concat _

/-- Claim C10: storing a frequency below `2^31` for any (VFO, band) pair
and loading it back returns exactly the stored value: the big-endian
four-byte split and the reassembly are mutually inverse on that range. -/
theorem c10_store_load_roundtrip (vfo band : Nat) (f : Int) (m : EEPROM)
    (hv : vfo ≤ 1) (hb : band ≤ 4) (h0 : 0 ≤ f) (h1 : f < 2147483648) :
    load_frequency (store_frequency vfo band f m) vfo band = f := by
  have hw0 : store_frequency vfo band f m (vfo * 4 + band * 8 + 64) =
      (f / 65536 / 256 % 256).toNat := by
    simp only [store_frequency, eeprom_write_byte, OFF_FREQ_DATA]
    rw [if_neg (by omega), if_neg (by omega), if_neg (by omega)]
    simp
  have hw1 : store_frequency vfo band f m (vfo * 4 + band * 8 + 64 + 1) =
      ((f / 65536 - f / 65536 / 256 * 256) % 256).toNat := by
    simp only [store_frequency, eeprom_write_byte, OFF_FREQ_DATA]
    rw [if_neg (by omega), if_neg (by omega)]
    simp
  have hw2 : store_frequency vfo band f m (vfo * 4 + band * 8 + 64 + 2) =
      ((f - f / 65536 * 65536) / 256 % 256).toNat := by
    simp only [store_frequency, eeprom_write_byte, OFF_FREQ_DATA]
    rw [if_neg (by omega)]
    simp
  have hw3 : store_frequency vfo band f m (vfo * 4 + band * 8 + 64 + 3) =
      ((f - f / 65536 * 65536 - (f - f / 65536 * 65536) / 256 * 256) % 256).toNat := by
    simp only [store_frequency, eeprom_write_byte, OFF_FREQ_DATA]
    simp
  simp only [load_frequency, eeprom_read_byte, OFF_FREQ_DATA]
  rw [hw0, hw1, hw2, hw3]
  split
  · omega
  · omega

/-- Witness for C10 at VFO A, band 2, 14.2 MHz, over a blank store. -/
theorem c10_store_load_roundtrip_witness :
    load_frequency (store_frequency 0 2 14200000 zeroEE) 0 2 = 14200000 :=
  c10_store_load_roundtrip 0 2 14200000 zeroEE (by decide) (by decide) (by decide)
    (by decide)

/-- Claim C2, evaluated at the failing input: a band change from band 2
(with the global `sideband` at band 2's default, USB = 1) to band 0
(default LSB = 0).  The frequency reload follows the claimed
edge-validated fallback (here the centre frequency, since a blank record
fails the check; with an in-range stored record, shown for band 3, the
stored value is taken), and `set_band` programs the LO with the new
band's default sideband — but the `sideband` state variable keeps its old
value 1 instead of being reset to `std_sideband[0] = 0`, and the DDS is
programmed with the old sideband's LO offset. -/
theorem c2_band_change_eval :
    (band_change c2_state zeroEE 0).lo_prog = std_sideband 0 ∧
    (band_change c2_state zeroEE 0).f_vfo 0 0 = c_freq 0 ∧
    (band_change c2_state zeroEE 0).dds_freq = c_freq 0 + f_lo 1 ∧
    std_sideband 0 = 0 ∧
    (band_change c2_state zeroEE 0).sideband = 1 ∧
    ¬ (band_change c2_state zeroEE 0).sideband = std_sideband 0 ∧
    (band_change c2_state c2ee 3).f_vfo 3 0 = 18111000 ∧
    is_mem_freq_ok 18111000 3 = true ∧
    next_band 2 = 3 := by
  decide

/-- `load_band` returns either the invalid marker or the stored byte,
which is then at most 4. -/
theorem load_band_spec (m : EEPROM) :
    load_band m = -1 ∨
    (load_band m = (eeprom_read_byte m 0 : Int) ∧ eeprom_read_byte m 0 ≤ 4) := by
  simp only [load_band]
  split
  · rename_i h
    right
    exact ⟨rfl, by omega⟩
  · left
    rfl

/-- A stored band byte above 4 makes `load_band` report invalid. -/
theorem load_band_invalid (m : EEPROM) (h : 4 < eeprom_read_byte m 0) :
    load_band m = -1 := by
  simp only [load_band]
  rw [if_neg (by omega)]

/-- `load_vfo` returns either the invalid marker or the stored byte,
which is then 0 or 1. -/
theorem load_vfo_spec (m : EEPROM) (b : Nat) :
    load_vfo m b = -1 ∨
    (load_vfo m b = (eeprom_read_byte m (b + OFF_VFO_DATA) : Int) ∧
      eeprom_read_byte m (b + OFF_VFO_DATA) ≤ 1) := by
  simp only [load_vfo]
  split
  · rename_i h
    right
    exact ⟨rfl, by omega⟩
  · left
    rfl

/-- A stored VFO byte other than 0 or 1 makes `load_vfo` report invalid. -/
theorem load_vfo_invalid (m : EEPROM) (b : Nat)
    (h : ¬ (eeprom_read_byte m (b + OFF_VFO_DATA) = 0 ∨
        eeprom_read_byte m (b + OFF_VFO_DATA) = 1)) :
    load_vfo m b = -1 := by
  simp only [load_vfo]
  rw [if_neg (by omega)]

/-- Claim C5: from every possible EEPROM content the startup load
sequence reaches a valid operating state: band in [0,4] (2 when the
stored byte is out of range), VFO in {0,1} (A when the stored byte is
invalid), frequency within the loaded band's edge bounds (the band's
centre frequency when the stored record fails the edge check), the band's
standard sideband, every TX preset in [0,4095] (2048 when the raw
two-byte word is out of range), and a scan threshold in [0,12] (8 when
the stored byte exceeds 12). -/
theorem c5_startup_defaults (m : EEPROM) :
    (startup_load m).cur_band ≤ 4 ∧
    (4 < eeprom_read_byte m 0 → (startup_load m).cur_band = 2) ∧
    (startup_load m).cur_vfo ≤ 1 ∧
    (¬ (eeprom_read_byte m ((startup_load m).cur_band + OFF_VFO_DATA) = 0 ∨
        eeprom_read_byte m ((startup_load m).cur_band + OFF_VFO_DATA) = 1) →
      (startup_load m).cur_vfo = 0) ∧
    band_f0 (startup_load m).cur_band ≤ (startup_load m).freq ∧
    (startup_load m).freq ≤ band_f1 (startup_load m).cur_band ∧
    (is_mem_freq_ok (load_frequency m (startup_load m).cur_vfo (startup_load m).cur_band)
        (startup_load m).cur_band = false →
      (startup_load m).freq = c_freq (startup_load m).cur_band) ∧
    (startup_load m).sideband = std_sideband (startup_load m).cur_band ∧
    (∀ b : Nat, 0 ≤ (startup_load m).tx_preset b ∧ (startup_load m).tx_preset b ≤ 4095) ∧
    (∀ b : Nat, 4095 < 256 * (eeprom_read_byte m (128 + b * 2) : Int)
          + (eeprom_read_byte m (128 + b * 2 + 1) : Int) →
      (startup_load m).tx_preset b = 2048) ∧
    0 ≤ (startup_load m).thresh ∧ (startup_load m).thresh ≤ 12 ∧
    (12 < eeprom_read_byte m 138 → (startup_load m).thresh = 8) := by
  have hcb : (startup_load m).cur_band = startup_band m := by
    simp only [startup_load]
  have hcv : (startup_load m).cur_vfo = startup_vfo m := by
    simp only [startup_load]
  have hfr : (startup_load m).freq = startup_freq m := by
    simp only [startup_load]
  have hth : (startup_load m).thresh = startup_thresh m := by
    simp only [startup_load]
  have htx : ∀ b : Nat, (startup_load m).tx_preset b = startup_tx m b := by
    intro b
    simp only [startup_load]
  have hband4 : (startup_load m).cur_band ≤ 4 := by
    rw [hcb]
    unfold startup_band
    rcases load_band_spec m with h | ⟨h1, h2⟩
    · rw [h]
      norm_num
    · rw [h1, if_neg (by omega)]
      omega
  have hbanddef : 4 < eeprom_read_byte m 0 → (startup_load m).cur_band = 2 := by
    intro h
    rw [hcb]
    unfold startup_band
    rw [load_band_invalid m h, if_pos rfl]
  have hvfo1 : (startup_load m).cur_vfo ≤ 1 := by
    rw [hcv]
    unfold startup_vfo
    rcases load_vfo_spec m (startup_band m) with h | ⟨h1, h2⟩
    · rw [h]
      norm_num
    · rw [h1, if_neg (by omega)]
      omega
  have hvfodef : ¬ (eeprom_read_byte m ((startup_load m).cur_band + OFF_VFO_DATA) = 0 ∨
      eeprom_read_byte m ((startup_load m).cur_band + OFF_VFO_DATA) = 1) →
      (startup_load m).cur_vfo = 0 := by
    intro h
    rw [hcb] at h
    rw [hcv]
    unfold startup_vfo
    rw [load_vfo_invalid m (startup_band m) h, if_pos rfl]
  have hmemok : ∀ (f : Int) (b : Nat), is_mem_freq_ok f b = true ↔
      band_f0 b ≤ f ∧ f ≤ band_f1 b := by
    intro f b
    simp [is_mem_freq_ok]
  have hcenter : band_f0 ((startup_load m).cur_band) ≤ c_freq ((startup_load m).cur_band) ∧
      c_freq ((startup_load m).cur_band) ≤ band_f1 ((startup_load m).cur_band) := by
    interval_cases h : (startup_load m).cur_band <;> exact ⟨by decide, by decide⟩
  have hfreq : band_f0 ((startup_load m).cur_band) ≤ (startup_load m).freq ∧
      (startup_load m).freq ≤ band_f1 ((startup_load m).cur_band) := by
    rw [hfr]
    unfold startup_freq
    rw [← hcb, ← hcv]
    by_cases hok : is_mem_freq_ok
        (load_frequency m ((startup_load m).cur_vfo) ((startup_load m).cur_band))
        ((startup_load m).cur_band) = true
    · rw [if_pos hok]
      exact (hmemok _ _).mp hok
    · rw [if_neg hok]
      exact hcenter
  have hfback : is_mem_freq_ok
      (load_frequency m ((startup_load m).cur_vfo) ((startup_load m).cur_band))
      ((startup_load m).cur_band) = false →
      (startup_load m).freq = c_freq ((startup_load m).cur_band) := by
    intro h
    rw [hfr]
    unfold startup_freq
    rw [← hcb, ← hcv, if_neg (by simp [h])]
  have htxbound : ∀ b : Nat, 0 ≤ load_tx_preset m b ∧ load_tx_preset m b ≤ 4095 := by
    intro b
    simp only [load_tx_preset]
    split
    · rename_i h
      omega
    · omega
  have htxin : ∀ b : Nat, 0 ≤ (startup_load m).tx_preset b ∧
      (startup_load m).tx_preset b ≤ 4095 := by
    intro b
    rw [htx b]
    unfold startup_tx
    split
    · omega
    · exact htxbound b
  have htxdef : ∀ b : Nat, 4095 < 256 * (eeprom_read_byte m (128 + b * 2) : Int)
      + (eeprom_read_byte m (128 + b * 2 + 1) : Int) →
      (startup_load m).tx_preset b = 2048 := by
    intro b h
    have hlt : load_tx_preset m b = 2048 := by
      simp only [load_tx_preset]
      rw [if_neg (by omega)]
    rw [htx b]
    unfold startup_tx
    rw [hlt]
    norm_num
  have hthin : 0 ≤ (startup_load m).thresh ∧ (startup_load m).thresh ≤ 12 := by
    rw [hth]
    unfold startup_thresh
    split
    · omega
    · omega
  have hthdef : 12 < eeprom_read_byte m 138 → (startup_load m).thresh = 8 := by
    intro h
    rw [hth]
    unfold startup_thresh
    rw [if_pos (by omega)]
  exact ⟨hband4, hbanddef, hvfo1, hvfodef, hfreq.1, hfreq.2, hfback, rfl, htxin,
    htxdef, hthin.1, hthin.2, hthdef⟩

/-- Witness for C5: an all-erased EEPROM (every byte 255) falls back to
band 2. -/
theorem c5_startup_defaults_witness : (startup_load m255).cur_band = 2 :=
  (c5_startup_defaults m255).2.1 (by decide)

/-- Inside the deadband, `tune_frequency` reports no change and leaves
the accumulator alone. -/
theorem tune_frequency_deadband (f k c : Int) (h1 : -2 ≤ k) (h2 : k ≤ 2) :
    tune_frequency f k c = (0, k) := by
  unfold tune_frequency
  rw [if_neg (by omega), if_neg (by omega)]

/-- Manual tuning inside the deadband leaves the probe frequency alone. -/
theorem tuneApply_quiet (e : ScanEnv) (t : Nat) (fx : Int)
    (h1 : -2 ≤ e.knob t) (h2 : e.knob t ≤ 2) : tuneApply e t fx = fx := by
  simp only [tuneApply]
  rw [tune_frequency_deadband fx (e.knob t) (e.cnt t) h1 h2]
  simp

/-- The strong-signal hold is not entered when its condition fails. -/
theorem stopLoop_exit (th : Int) (e : ScanEnv) (fuel t : Nat) (fx sval key : Int)
    (wait : Bool) (h : ¬ (sval > th ∧ key = 0)) :
    stopLoop th e (fuel + 1) t fx sval key wait = some (t, fx, sval, key, wait) := by
  simp only [stopLoop]
  rw [if_neg h]

/-- One pass of the strong-signal hold: measure, poll, tune, with the
manual-tuning application composed into the probe before the recursive
call performs the next measurement. -/
theorem stopLoop_step (th : Int) (e : ScanEnv) (fuel t : Nat) (fx sval key : Int)
    (wait : Bool) (h1 : sval > th) (h2 : key = 0) :
    stopLoop th e (fuel + 1) t fx sval key wait =
      stopLoop th e fuel (t + 3) (tuneApply e (t + 2) fx) (e.sval t) (e.key (t + 1))
        true := by
  simp only [stopLoop]
  rw [if_pos ⟨h1, h2⟩]

/-- With no key pressed, the strong-signal hold exits only once the
re-measured level has dropped to the threshold or below. -/
theorem stopLoop_nokey_exit (th : Int) (e : ScanEnv) (hk : ∀ s, e.key s = 0) :
    ∀ (fuel t : Nat) (fx sval key : Int) (wait : Bool)
      (t1 : Nat) (fx1 sval1 key1 : Int) (wait1 : Bool), key = 0 →
      stopLoop th e fuel t fx sval key wait = some (t1, fx1, sval1, key1, wait1) →
      sval1 ≤ th ∧ key1 = 0 := by
  intro fuel
  induction fuel with
  | zero =>
    intro t fx sval key wait t1 fx1 sval1 key1 wait1 hkey h
    simp [stopLoop] at h
  | succ fuel ih =>
    intro t fx sval key wait t1 fx1 sval1 key1 wait1 hkey h
    by_cases hc : sval > th ∧ key = 0
    · rw [stopLoop_step th e fuel t fx sval key wait hc.1 hc.2] at h
      exact ih _ _ _ _ _ _ _ _ _ _ (hk (t + 1)) h
    · rw [stopLoop_exit th e fuel t fx sval key wait hc] at h
      have h1 := h
      simp only [Option.some.injEq, Prod.mk.injEq] at h1
      obtain ⟨-, -, hsv, hky, -⟩ := h1
      subst hsv
      subst hky
      constructor
      · omega
      · exact hkey

/-- With the knob inside the deadband, the strong-signal hold never moves
the probe frequency: the scanner stops advancing while it measures. -/
theorem stopLoop_quiet_fx (th : Int) (e : ScanEnv)
    (hq : ∀ s, -2 ≤ e.knob s ∧ e.knob s ≤ 2) :
    ∀ (fuel t : Nat) (fx sval key : Int) (wait : Bool)
      (t1 : Nat) (fx1 sval1 key1 : Int) (wait1 : Bool),
      stopLoop th e fuel t fx sval key wait = some (t1, fx1, sval1, key1, wait1) →
      fx1 = fx := by
  intro fuel
  induction fuel with
  | zero =>
    intro t fx sval key wait t1 fx1 sval1 key1 wait1 h
    simp [stopLoop] at h
  | succ fuel ih =>
    intro t fx sval key wait t1 fx1 sval1 key1 wait1 h
    by_cases hc : sval > th ∧ key = 0
    · rw [stopLoop_step th e fuel t fx sval key wait hc.1 hc.2,
        tuneApply_quiet e (t + 2) fx (hq (t + 2)).1 (hq (t + 2)).2] at h
      exact ih _ _ _ _ _ _ _ _ _ _ h
    · rw [stopLoop_exit th e fuel t fx sval key wait hc] at h
      simp only [Option.some.injEq, Prod.mk.injEq] at h
      exact h.2.1.symm

/-- One pass of the dwell loop: read the tick counter, poll the key
(zeroing the resume threshold on a press), and apply manual tuning to the
probe before the recursive call reads the counter again. -/
theorem dwellLoop_step (e : ScanEnv) (fuel t : Nat) (fx key th30 : Int)
    (h : th30 + 30 > e.rsec t) :
    dwellLoop e (fuel + 1) t fx key th30 =
      dwellLoop e fuel (t + 3) (tuneApply e (t + 2) fx) (e.key (t + 1))
        (if e.key (t + 1) ≠ 0 then 0 else th30) := by
  simp only [dwellLoop]
  rw [if_pos h]

/-- With no key pressed, the dwell loop only exits after observing a tick
count at least 30 beyond the captured threshold: scanning does not resume
before the dwell period has elapsed. -/
theorem dwellLoop_nokey_bound (e : ScanEnv) (hk : ∀ s, e.key s = 0) :
    ∀ (fuel t : Nat) (fx key th30 : Int) (t2 : Nat) (fx2 key2 : Int) (idx : Nat),
      dwellLoop e fuel t fx key th30 = some (t2, fx2, key2, idx) →
      th30 + 30 ≤ e.rsec idx := by
  intro fuel
  induction fuel with
  | zero =>
    intro t fx key th30 t2 fx2 key2 idx h
    simp [dwellLoop] at h
  | succ fuel ih =>
    intro t fx key th30 t2 fx2 key2 idx h
    by_cases hc : th30 + 30 > e.rsec t
    · rw [dwellLoop_step e fuel t fx key th30 hc] at h
      have hz : (if e.key (t + 1) ≠ 0 then (0 : Int) else th30) = th30 := by
        rw [hk (t + 1)]
        simp
      rw [hz] at h
      exact ih _ _ _ _ _ _ _ _ h
    · simp only [dwellLoop] at h
      rw [if_neg hc] at h
      simp only [Option.some.injEq, Prod.mk.injEq] at h
      obtain ⟨-, -, -, hidx⟩ := h
      subst hidx
      omega

/-- A quiet sweep iteration (no strong signal, `wait` clear): the body
polls the key, measures, skips both holds, applies manual tuning, and
dispatches on the key. -/
theorem iterBody_quiet (th : Int) (e : ScanEnv) (fuel t : Nat) (fx : Int)
    (hsv : e.sval (t + 1) ≤ th) :
    iterBody th e (fuel + 1) t fx false =
      (if e.key t = 2 then some (IterOut.exit (tuneApply e (t + 3) fx))
       else if e.key t = 3 then some (IterOut.exit 0)
       else some (IterOut.cont (t + 4) (tuneApply e (t + 3) fx))) := by
  simp only [iterBody]
  rw [stopLoop_exit th e fuel (t + 2) fx (e.sval (t + 1)) (e.key t) false
    (by intro hc; omega)]
  simp only [Bool.false_eq_true, if_false]

/-- One-step unfolding of the sweep loop. -/
theorem scanFor_succ (th : Int) (e : ScanEnv) (hi : Int) (fuel t : Nat) (fx : Int)
    (wait : Bool) :
    scanFor th e hi (fuel + 1) t fx wait =
      (if fx < hi then
        match iterBody th e fuel t fx wait with
        | none => none
        | some (IterOut.exit v) => some (Sum.inl v)
        | some (IterOut.cont t1 fx1) => scanFor th e hi fuel t1 (fx1 + 100) false
      else some (Sum.inr (t, wait))) := rfl

/-- A quiet sweep under a quiet knob: with the accept key first returned
at the key poll of iteration `k`, the sweep body advances exactly 100 Hz
per iteration and returns the probe `fx + 100·k`. -/
theorem scanFor_quiet (th : Int) (e : ScanEnv) (hi : Int)
    (hsv : ∀ s, e.sval s ≤ th) (hq : ∀ s, -2 ≤ e.knob s ∧ e.knob s ≤ 2) :
    ∀ (k fuel t : Nat) (fx : Int),
      (∀ s, s < t + 4 * k → e.key s = 0) → e.key (t + 4 * k) = 2 →
      fx + 100 * k < hi → k + 2 ≤ fuel →
      scanFor th e hi fuel t fx false = some (Sum.inl (fx + 100 * k)) := by
  intro k
  induction k with
  | zero =>
    intro fuel t fx hk0 hk2 hlt hfuel
    obtain ⟨f1, rfl⟩ : ∃ f1, fuel = f1 + 1 := ⟨fuel - 1, by omega⟩
    obtain ⟨f2, rfl⟩ : ∃ f2, f1 = f2 + 1 := ⟨f1 - 1, by omega⟩
    simp only [Nat.mul_zero, Nat.add_zero] at hk2
    simp only [Nat.cast_zero, Int.mul_zero, Int.add_zero] at hlt ⊢
    rw [scanFor_succ, if_pos hlt]
    rw [iterBody_quiet th e f2 t fx (hsv (t + 1)), if_pos hk2,
      tuneApply_quiet e (t + 3) fx (hq (t + 3)).1 (hq (t + 3)).2]
  | succ k ih =>
    intro fuel t fx hk0 hk2 hlt hfuel
    obtain ⟨f1, rfl⟩ : ∃ f1, fuel = f1 + 1 := ⟨fuel - 1, by omega⟩
    push_cast at hlt
    have hlt0 : fx < hi := by omega
    rw [scanFor_succ, if_pos hlt0]
    have hkt : e.key t = 0 := hk0 t (by omega)
    obtain ⟨f2, rfl⟩ : ∃ f2, f1 = f2 + 1 := ⟨f1 - 1, by omega⟩
    rw [iterBody_quiet th e f2 t fx (hsv (t + 1)), if_neg (by omega),
      if_neg (by omega),
      tuneApply_quiet e (t + 3) fx (hq (t + 3)).1 (hq (t + 3)).2]
    have hrec := ih (f2 + 1) (t + 4) (fx + 100)
      (fun s hs => hk0 s (by omega)) (by
        have heq : t + 4 + 4 * k = t + 4 * (k + 1) := by omega
        rw [heq]
        exact hk2)
      (by omega) (by omega)
    simp only []
    rw [hrec]
    have hval : fx + 100 + 100 * (k : Int) = fx + 100 * ((k + 1 : Nat) : Int) := by
      push_cast
      ring
    rw [hval]

/-- The key-release wait exits at the first poll returning no key. -/
theorem debounce_quick (e : ScanEnv) (fuel : Nat) (h : e.key 0 = 0) :
    debounce e (fuel + 1) 0 = some 1 := by
  simp only [debounce]
  rw [if_neg (by simp [h])]

/-- Claim C6: `scan_f0_f1` normalizes the two VFO frequencies so the
sweep runs from the smaller to the larger; each quiet iteration applies
pending manual tuning to the probe before the key dispatch and otherwise
advances 100 Hz; key 2 (accept) exits returning the current (tuned)
probe, key 3 (abort) exits returning 0; end to end, with the accept key
first seen at the key poll of iteration `k`, the scan returns
`min + 100·k`. -/
theorem c6_scan_f0_f1 :
    (∀ a b : Int, scan_bounds a b = (min a b, max a b)) ∧
    (∀ (th : Int) (e : ScanEnv) (fuel t : Nat) (fx : Int),
      e.sval (t + 1) ≤ th → e.key t ≠ 2 → e.key t ≠ 3 →
      iterBody th e (fuel + 1) t fx false =
        some (IterOut.cont (t + 4) (tuneApply e (t + 3) fx))) ∧
    (∀ (th : Int) (e : ScanEnv) (fuel t : Nat) (fx : Int),
      e.sval (t + 1) ≤ th → e.key t = 2 →
      iterBody th e (fuel + 1) t fx false =
        some (IterOut.exit (tuneApply e (t + 3) fx))) ∧
    (∀ (th : Int) (e : ScanEnv) (fuel t : Nat) (fx : Int),
      e.sval (t + 1) ≤ th → e.key t = 3 →
      iterBody th e (fuel + 1) t fx false = some (IterOut.exit 0)) ∧
    (∀ (th : Int) (e : ScanEnv) (a b : Int) (k fuel : Nat),
      (∀ s, e.sval s ≤ th) → (∀ s, -2 ≤ e.knob s ∧ e.knob s ≤ 2) →
      (∀ s, s < 1 + 4 * k → e.key s = 0) → e.key (1 + 4 * k) = 2 →
      min a b + 100 * k < max a b → k + 2 ≤ fuel →
      scan_f0_f1 th e a b false fuel = some (min a b + 100 * k)) := by
  have hbounds : ∀ a b : Int, scan_bounds a b = (min a b, max a b) := by
    intro a b
    unfold scan_bounds
    split <;> (simp only [Prod.mk.injEq]; constructor <;> omega)
  refine ⟨hbounds, ?_, ?_, ?_, ?_⟩
  · intro th e fuel t fx hsv h2 h3
    rw [iterBody_quiet th e fuel t fx hsv, if_neg h2, if_neg h3]
  · intro th e fuel t fx hsv h2
    rw [iterBody_quiet th e fuel t fx hsv, if_pos h2]
  · intro th e fuel t fx hsv h3
    rw [iterBody_quiet th e fuel t fx hsv]
    rw [if_neg (by omega), if_pos h3]
  · intro th e a b k fuel hsv hq hk0 hk2 hlt hfuel
    obtain ⟨f1, rfl⟩ : ∃ f1, fuel = f1 + 1 := ⟨fuel - 1, by omega⟩
    unfold scan_f0_f1
    rw [hbounds a b]
    rw [debounce_quick e f1 (hk0 0 (by omega))]
    simp only [scanOuter]
    rw [scanFor_quiet th e (max a b) hsv hq k (f1 + 1) 1 (min a b) hk0 hk2 hlt
      (by omega)]

/-- Witness for C6: in a quiet environment with the accept key at the key
poll of iteration 1, the sweep from the normalized pair returns the lower
bound plus 100 Hz. -/
theorem c6_scan_f0_f1_witness :
    scan_f0_f1 5 c6env 14200000 14000000 false 3 =
      some (min (14200000 : Int) 14000000 + 100 * ((1 : Nat) : Int)) :=
  c6_scan_f0_f1.2.2.2.2 5 c6env 14200000 14000000 1 3
    (fun s => by norm_num [c6env])
    (fun s => by norm_num [c6env])
    (by
      intro s hs
      simp only [c6env]
      rw [if_neg (by omega)])
    (by norm_num [c6env])
    (by norm_num)
    (by norm_num)

/-- Claim C7: whenever the measured level exceeds the threshold (and no
key is pressed) the scanner enters the hold, which keeps re-measuring and
never moves the probe except by manual tuning, and exits only once the
level has dropped to the threshold or below; it then does not resume
advancing until a tick-counter read at least 30 ticks (3 s) beyond the
captured value; and in both the hold and the dwell, each pass applies the
pending manual tuning to the in-flight probe before the recursive call
performs the next measurement or counter read. -/
theorem c7_scan_dwell :
    (∀ (th : Int) (e : ScanEnv) (fuel t : Nat) (fx sval key : Int) (wait : Bool),
      sval > th → key = 0 →
      stopLoop th e (fuel + 1) t fx sval key wait =
        stopLoop th e fuel (t + 3) (tuneApply e (t + 2) fx) (e.sval t)
          (e.key (t + 1)) true) ∧
    (∀ (th : Int) (e : ScanEnv), (∀ s, e.key s = 0) →
      ∀ (fuel t : Nat) (fx sval key : Int) (wait : Bool)
        (t1 : Nat) (fx1 sval1 key1 : Int) (wait1 : Bool), key = 0 →
        stopLoop th e fuel t fx sval key wait = some (t1, fx1, sval1, key1, wait1) →
        sval1 ≤ th ∧ key1 = 0) ∧
    (∀ (e : ScanEnv), (∀ s, e.key s = 0) →
      ∀ (fuel t : Nat) (fx key th30 : Int) (t2 : Nat) (fx2 key2 : Int) (idx : Nat),
        dwellLoop e fuel t fx key th30 = some (t2, fx2, key2, idx) →
        th30 + 30 ≤ e.rsec idx) ∧
    (∀ (e : ScanEnv) (fuel t : Nat) (fx key th30 : Int),
      th30 + 30 > e.rsec t →
      dwellLoop e (fuel + 1) t fx key th30 =
        dwellLoop e fuel (t + 3) (tuneApply e (t + 2) fx) (e.key (t + 1))
          (if e.key (t + 1) ≠ 0 then 0 else th30)) ∧
    (∀ (th : Int) (e : ScanEnv), (∀ s, -2 ≤ e.knob s ∧ e.knob s ≤ 2) →
      ∀ (fuel t : Nat) (fx sval key : Int) (wait : Bool)
        (t1 : Nat) (fx1 sval1 key1 : Int) (wait1 : Bool),
        stopLoop th e fuel t fx sval key wait = some (t1, fx1, sval1, key1, wait1) →
        fx1 = fx) := by
  refine ⟨?_, ?_, ?_, ?_, ?_⟩
  · intro th e fuel t fx sval key wait h1 h2
    exact stopLoop_step th e fuel t fx sval key wait h1 h2
  · intro th e hk fuel t fx sval key wait t1 fx1 sval1 key1 wait1 hkey h
    exact stopLoop_nokey_exit th e hk fuel t fx sval key wait t1 fx1 sval1 key1 wait1
      hkey h
  · intro e hk fuel t fx key th30 t2 fx2 key2 idx h
    exact dwellLoop_nokey_bound e hk fuel t fx key th30 t2 fx2 key2 idx h
  · intro e fuel t fx key th30 h
    exact dwellLoop_step e fuel t fx key th30 h
  · intro th e hq fuel t fx sval key wait t1 fx1 sval1 key1 wait1 h
    exact stopLoop_quiet_fx th e hq fuel t fx sval key wait t1 fx1 sval1 key1 wait1 h

/-- Witness for C7: in the key-free environment whose tick counter
advances once per read, a dwell hold entered at tick 0 exits exactly at
the read observing tick 30. -/
theorem c7_scan_dwell_witness : (0 : Int) + 30 ≤ c7env.rsec 30 :=
  c7_scan_dwell.2.2.1 c7env (fun _ => rfl) 12 0 100 0 0 31 100 0 30 (by rfl)

end Mini5
